import Mathlib

/-!
Shallow embedding of the PnL aggregation core of the polymarket-statistics
dashboard (`src/app/dashboard_demo/page.tsx` and `src/app/dashboard/page.tsx`).

Monetary amounts are modelled as rationals; the Sharpe ratio, which involves
square roots, is modelled as a real number.  The `filtered` derivation reads
the wall clock (`new Date()`); that external input is modelled as an explicit
parameter `todayMinus : Nat -> String` giving the ISO date string for
"today minus N days".
-/

namespace PolyStats

/-- Daily PnL record from the dashboard pages:
`{ date; realized; unrealized; fees }`. -/
structure DailyPnl where
  date : String
  realized : ℚ
  unrealized : ℚ
  fees : ℚ
deriving DecidableEq, Repr

/-- Trade side, `"BUY" | "SELL"`. -/
inductive Side where
  | BUY
  | SELL
deriving DecidableEq, Repr

/-- Trade record from the dashboard pages; `realizedPnl` is optional
(`realizedPnl?: number`). -/
structure Trade where
  id : String
  timestamp : String
  market : String
  side : Side
  token : String
  price : ℚ
  qty : ℚ
  fee : ℚ
  realizedPnl : Option ℚ
deriving DecidableEq, Repr

/-- The display range selector, `"7D" | "30D" | "90D" | "ALL"`. -/
inductive Range where
  | D7
  | D30
  | D90
  | ALL
deriving DecidableEq, Repr

/-- Embeds `const days = range === "7D" ? 7 : range === "30D" ? 30 : 90;`. -/
def rangeDays : Range → Nat
  | Range.D7 => 7
  | Range.D30 => 30
  | _ => 90

/-- The `filtered` useMemo derivation.  `todayMinus n` stands for the cutoff
computation `const dt = new Date(); dt.setDate(dt.getDate() - n);
dt.toISOString().slice(0, 10)` — an external clock input, so it is passed in
as a parameter.  The body is
`if (range === "ALL") return daily; ... return daily.filter((d) => d.date >= cut);`. -/
def filterByRange (todayMinus : Nat → String) (daily : List DailyPnl)
    (range : Range) : List DailyPnl :=
  match range with
  | Range.ALL => daily
  | _ =>
    let cut := todayMinus (rangeDays range)
    daily.filter (fun d => decide (cut ≤ d.date))

/-- One point of the `series` useMemo derivation:
`{ date, delta, realized, unrealized, fees: -d.fees, cumulative: cum }`. -/
structure SeriesPoint where
  date : String
  delta : ℚ
  realized : ℚ
  unrealized : ℚ
  fees : ℚ
  cumulative : ℚ
deriving DecidableEq, Repr

/-- The body of the `series` map with the running accumulator `cum` made
explicit: for each record `delta = d.realized + d.unrealized - d.fees`,
`cum += delta`, emit the point. -/
def buildSeriesAux (cum : ℚ) : List DailyPnl → List SeriesPoint
  | [] => []
  | d :: rest =>
    let delta := d.realized + d.unrealized - d.fees
    let cum2 := cum + delta
    { date := d.date, delta := delta, realized := d.realized,
      unrealized := d.unrealized, fees := -d.fees, cumulative := cum2 }
      :: buildSeriesAux cum2 rest

/-- The `series` useMemo derivation: `let cum = 0; return filtered.map(...)`. -/
def buildSeries (daily : List DailyPnl) : List SeriesPoint :=
  buildSeriesAux 0 daily

/-- Return type of `computeAggregates`. -/
structure Aggregates where
  totalRealized : ℚ
  totalUnrealized : ℚ
  totalFees : ℚ
  netPnl : ℚ
  winRate : ℚ
  tradesCount : Nat
  sharpe : ℝ

/-- Embeds `export function computeAggregates(daily, trades)` from both
dashboard pages (the two copies are textually identical):

```
const totalRealized = daily.reduce((s, d) => s + d.realized, 0);
const totalUnrealized = daily.reduce((s, d) => s + d.unrealized, 0);
const totalFees = daily.reduce((s, d) => s + d.fees, 0);
const netPnl = totalRealized + totalUnrealized - totalFees;
const wins = trades.filter((t) => (t.realizedPnl ?? 0) > 0).length;
const winRate = trades.length ? wins / trades.length : 0;
const rets = daily.map((d) => d.realized + d.unrealized - d.fees);
const mean = rets.reduce((a, b) => a + b, 0) / Math.max(rets.length, 1);
const sd = Math.sqrt(rets.reduce((s, r) => s + Math.pow(r - mean, 2), 0)
             / Math.max(rets.length, 1)) || 1;
const sharpe = (mean / sd) * Math.sqrt(365);
```

`x || 1` substitutes `1` exactly when the square root is `0` (the radicand is
a sum of squares over a nonnegative denominator, so it is never negative and
the square root is never NaN). -/
noncomputable def computeAggregates (daily : List DailyPnl)
    (trades : List Trade) : Aggregates :=
  let totalRealized := daily.foldl (fun s d => s + d.realized) 0
  let totalUnrealized := daily.foldl (fun s d => s + d.unrealized) 0
  let totalFees := daily.foldl (fun s d => s + d.fees) 0
  let netPnl := totalRealized + totalUnrealized - totalFees
  let wins := (trades.filter (fun t => decide (0 < t.realizedPnl.getD 0))).length
  let winRate : ℚ := if trades.length = 0 then 0 else (wins : ℚ) / (trades.length : ℚ)
  let rets := daily.map (fun d => d.realized + d.unrealized - d.fees)
  let mean : ℚ := rets.foldl (fun a b => a + b) 0 / ((max rets.length 1 : ℕ) : ℚ)
  let sd0 : ℝ :=
    Real.sqrt (((rets.foldl (fun s r => s + (r - mean) ^ 2) 0
      / ((max rets.length 1 : ℕ) : ℚ) : ℚ) : ℝ))
  let sd : ℝ := if sd0 = 0 then 1 else sd0
  let sharpe : ℝ := ((mean : ℝ) / sd) * Real.sqrt 365
  { totalRealized := totalRealized, totalUnrealized := totalUnrealized,
    totalFees := totalFees, netPnl := netPnl, winRate := winRate,
    tradesCount := trades.length, sharpe := sharpe }

/-- The per-day net delta, `realized + unrealized - fees`. -/
def dailyDelta (d : DailyPnl) : ℚ :=
  d.realized + d.unrealized - d.fees

/-- Sum of the per-day net deltas of a list of records (spec vocabulary for
stating running-sum and reconciliation properties). -/
def sumDeltas (daily : List DailyPnl) : ℚ :=
  (daily.map dailyDelta).sum

/-- Mean of the per-day net returns as the spec words it: the average
(sum divided by the number of records). -/
def specMean (daily : List DailyPnl) : ℚ :=
  sumDeltas daily / (daily.length : ℚ)

/-- Population variance of the per-day net returns as the spec words it:
sum of squared deviations divided by N (not N - 1). -/
def specVariance (daily : List DailyPnl) : ℚ :=
  ((daily.map dailyDelta).map (fun r => (r - specMean daily) ^ 2)).sum
    / (daily.length : ℚ)

/-- Population standard deviation of the per-day net returns as the spec
words it. -/
noncomputable def specSd (daily : List DailyPnl) : ℝ :=
  Real.sqrt ((specVariance daily : ℚ) : ℝ)

/-- Folding addition of `f` over a list starting from `init` is `init` plus
the sum of the mapped list (shape of every `reduce((s, d) => s + f(d), 0)`
in the source). -/
theorem foldl_add_map_sum {α : Type} (f : α → ℚ) (l : List α) (init : ℚ) :
    l.foldl (fun s x => s + f x) init = init + (l.map f).sum := by
  induction l generalizing init with
  | nil => simp
  | cons x xs ih =>
    simp only [List.foldl_cons, List.map_cons, List.sum_cons, ih]
    ring

/-- Length of the series produced by the accumulator loop. -/
theorem buildSeriesAux_length (l : List DailyPnl) (cum : ℚ) :
    (buildSeriesAux cum l).length = l.length := by
  induction l generalizing cum with
  | nil => rfl
  | cons d rest ih => simp [buildSeriesAux, ih]

/-- Pointwise description of the accumulator loop: the i-th emitted point
carries the i-th record's fields, its delta, and the accumulator plus the
running sum of deltas up to and including position i. -/
theorem buildSeriesAux_getElem? (l : List DailyPnl) (cum : ℚ) (i : ℕ)
    (h : i < l.length) :
    (buildSeriesAux cum l)[i]? =
      some { date := (l.get ⟨i, h⟩).date,
             delta := dailyDelta (l.get ⟨i, h⟩),
             realized := (l.get ⟨i, h⟩).realized,
             unrealized := (l.get ⟨i, h⟩).unrealized,
             fees := -(l.get ⟨i, h⟩).fees,
             cumulative := cum + sumDeltas (l.take (i + 1)) } := by
  induction l generalizing cum i with
  | nil => simp at h
  | cons d rest ih =>
    cases i with
    | zero =>
      simp [buildSeriesAux, sumDeltas, dailyDelta]
    | succ j =>
      have hj : j < rest.length := Nat.lt_of_succ_lt_succ h
      simp only [buildSeriesAux, List.getElem?_cons_succ]
      rw [ih (cum + (d.realized + d.unrealized - d.fees)) j hj]
      simp only [List.get_cons_succ, List.take_succ_cons, sumDeltas,
        List.map_cons, List.sum_cons, dailyDelta]
      congr 1
      congr 1
      ring

/-- The two-record input of the spec's cumulative-sum scenario:
`{realized:10, unrealized:0, fees:0}` then `{realized:-5, unrealized:2, fees:1}`. -/
def exCumDaily : List DailyPnl :=
  [{ date := "2024-01-01", realized := 10, unrealized := 0, fees := 0 },
   { date := "2024-01-02", realized := -5, unrealized := 2, fees := 1 }]

/-- C1: buildSeries emits exactly one output point per input record, in input
order; each point's delta is realized + unrealized - fees, its fees field is
the negation of the record's fees, and its cumulative is the running sum of
deltas (accumulator starting at 0) up to and including that record. -/
theorem buildSeries_pointwise (daily : List DailyPnl) (i : ℕ)
    (h : i < daily.length) :
    (buildSeries daily).length = daily.length ∧
    (buildSeries daily)[i]? =
      some { date := (daily.get ⟨i, h⟩).date,
             delta := (daily.get ⟨i, h⟩).realized + (daily.get ⟨i, h⟩).unrealized
               - (daily.get ⟨i, h⟩).fees,
             realized := (daily.get ⟨i, h⟩).realized,
             unrealized := (daily.get ⟨i, h⟩).unrealized,
             fees := -(daily.get ⟨i, h⟩).fees,
             cumulative := sumDeltas (daily.take (i + 1)) } := by
  refine ⟨buildSeriesAux_length daily 0, ?_⟩
  rw [buildSeries, buildSeriesAux_getElem? daily 0 i h]
  simp [dailyDelta]

/-- Witness for C1 on the spec's concrete scenario: the second point of the
series for `exCumDaily` has delta -4 and cumulative 6, and the series has one
point per record. -/
theorem buildSeries_pointwise_witness :
    (buildSeries exCumDaily).length = exCumDaily.length ∧
    (buildSeries exCumDaily)[1]? =
      some { date := "2024-01-02", delta := -4, realized := -5, unrealized := 2,
             fees := -1, cumulative := 6 } := by
  have h : 1 < exCumDaily.length := by norm_num [exCumDaily]
  have hmain := buildSeries_pointwise exCumDaily 1 h
  refine ⟨hmain.1, hmain.2.trans ?_⟩
  norm_num [exCumDaily, sumDeltas, dailyDelta]

/-- A fixed cutoff function standing for the clock-derived
`todayMinus` input in concrete instantiations. -/
def demoTodayMinus : ℕ → String := fun _ => "2024-01-02"

/-- C3: for every range in 7D, 30D, 90D the filtered derivation keeps exactly
the records whose date string is at least the cutoff `todayMinus N`
(N = 7, 30, 90 respectively), inclusively and under the string (lexicographic)
order, preserving input order; for ALL every record is returned unchanged. -/
theorem filterByRange_spec (todayMinus : ℕ → String) (daily : List DailyPnl)
    (range : Range) (h : range ≠ Range.ALL) :
    (filterByRange todayMinus daily range).Sublist daily ∧
    (∀ d : DailyPnl, d ∈ filterByRange todayMinus daily range ↔
      d ∈ daily ∧ todayMinus (rangeDays range) ≤ d.date) ∧
    filterByRange todayMinus daily range =
      daily.filter (fun d => decide (todayMinus (rangeDays range) ≤ d.date)) ∧
    rangeDays Range.D7 = 7 ∧ rangeDays Range.D30 = 30 ∧
    rangeDays Range.D90 = 90 ∧
    filterByRange todayMinus daily Range.ALL = daily := by
  cases range with
  | ALL => exact absurd rfl h
  | D7 =>
    refine ⟨List.filter_sublist daily, ?_, rfl, rfl, rfl, rfl, rfl⟩
    intro d
    simp [filterByRange, List.mem_filter]
  | D30 =>
    refine ⟨List.filter_sublist daily, ?_, rfl, rfl, rfl, rfl, rfl⟩
    intro d
    simp [filterByRange, List.mem_filter]
  | D90 =>
    refine ⟨List.filter_sublist daily, ?_, rfl, rfl, rfl, rfl, rfl⟩
    intro d
    simp [filterByRange, List.mem_filter]

/-- Witness for C3: the 7D filter applied to a concrete list with a concrete
cutoff function yields a sublist of the input (order preserved). -/
theorem filterByRange_spec_witness :
    (filterByRange demoTodayMinus exCumDaily Range.D7).Sublist exCumDaily :=
  (filterByRange_spec demoTodayMinus exCumDaily Range.D7 (by decide)).1

/-- A trade whose only distinguishing datum is its optional realized PnL, as
in the spec's win-rate scenario. -/
def mkTrade (p : Option ℚ) : Trade :=
  { id := "", timestamp := "", market := "", side := Side.BUY, token := "",
    price := 0, qty := 0, fee := 0, realizedPnl := p }

/-- The spec's win-rate scenario trades:
`[{realizedPnl:5}, {realizedPnl:-3}, {realizedPnl:undefined}]`. -/
def exWinTrades : List Trade :=
  [mkTrade (some 5), mkTrade (some (-3)), mkTrade none]

/-- C4: winRate is wins divided by the total trade count (undefined
realizedPnl included in the denominator) when there are trades, and 0
otherwise, where wins counts exactly the trades whose realizedPnl is defined
and positive; on the spec's scenario the result is 1/3. -/
theorem winRate_total_denominator (daily : List DailyPnl)
    (trades : List Trade) :
    (computeAggregates daily trades).tradesCount = trades.length ∧
    (computeAggregates daily trades).winRate =
      (if trades.length = 0 then 0 else
        ((trades.countP (fun t => match t.realizedPnl with
            | some v => decide (0 < v)
            | none => false) : ℕ) : ℚ) / (trades.length : ℚ)) ∧
    (computeAggregates [] exWinTrades).winRate = 1 / 3 := by
  refine ⟨rfl, ?_, ?_⟩
  · have hpred : (fun t : Trade => decide (0 < t.realizedPnl.getD 0)) =
        (fun t : Trade => match t.realizedPnl with
          | some v => decide (0 < v)
          | none => false) := by
      funext t
      cases t.realizedPnl with
      | none => simp
      | some v => rfl
    simp only [computeAggregates, List.countP_eq_length_filter, hpred]
  · norm_num [computeAggregates, exWinTrades, mkTrade]

/-- Modelled from the spec: win rate as the fraction of trades with
`realizedPnl > 0` computed over only the trades that have a defined
`realizedPnl`, and 0 when that set is empty (division-by-zero guard). -/
def winRateDefinedDenom (trades : List Trade) : ℚ :=
  let defined := trades.filter (fun t => t.realizedPnl.isSome)
  let wins := defined.filter (fun t => decide (0 < t.realizedPnl.getD 0))
  if defined.length = 0 then 0 else (wins.length : ℚ) / (defined.length : ℚ)

/-- Two trades, one winning with defined realizedPnl and one with undefined
realizedPnl: the code's winRate is 1/2 while the defined-denominator reading
of the spec gives 1. -/
def exMixedTrades : List Trade := [mkTrade (some 5), mkTrade none]

/-- Counterexample for C5: on `exMixedTrades` the code divides by the total
trade count (2), yielding 1/2, whereas the claim's defined-only denominator
yields 1. -/
theorem winRate_defined_denominator_cex :
    (computeAggregates [] exMixedTrades).winRate = 1 / 2 ∧
    winRateDefinedDenom exMixedTrades = 1 ∧
    ((1 : ℚ) / 2) ≠ 1 := by
  refine ⟨?_, ?_, by norm_num⟩
  · norm_num [computeAggregates, exMixedTrades, mkTrade]
  · norm_num [winRateDefinedDenom, exMixedTrades, mkTrade]

/-- C5 amended: winRate is the number of trades with defined and positive
realizedPnl divided by the total trade count (trades with undefined
realizedPnl are counted in the denominator), and 0 when there are no trades. -/
theorem winRate_amended (daily : List DailyPnl) (trades : List Trade)
    (h : trades ≠ []) :
    (computeAggregates daily trades).winRate =
      ((trades.filter (fun t =>
        (t.realizedPnl.map (fun v => decide (0 < v))).getD false)).length : ℚ)
        / (trades.length : ℚ) ∧
    (computeAggregates daily []).winRate = 0 := by
  constructor
  · have hpred : (fun t : Trade => decide (0 < t.realizedPnl.getD 0)) =
        (fun t : Trade =>
          (t.realizedPnl.map (fun v => decide (0 < v))).getD false) := by
      funext t
      cases t.realizedPnl with
      | none => simp
      | some v => rfl
    have hlen : trades.length ≠ 0 := by
      simpa [List.length_eq_zero] using h
    simp only [computeAggregates, hpred, if_neg hlen]
  · simp [computeAggregates]

/-- Witness for C5's amended statement at the concrete mixed trade list:
winRate is 1/2 there. -/
theorem winRate_amended_witness :
    (computeAggregates [] exMixedTrades).winRate =
      ((exMixedTrades.filter (fun t =>
        (t.realizedPnl.map (fun v => decide (0 < v))).getD false)).length : ℚ)
        / (exMixedTrades.length : ℚ) :=
  (winRate_amended [] exMixedTrades (by simp [exMixedTrades])).1

/-- Input realizing the spec's net-PnL scenario: totals 100 realized,
-20 unrealized, 5 fees. -/
def exNetDaily : List DailyPnl :=
  [{ date := "2024-01-01", realized := 60, unrealized := -15, fees := 2 },
   { date := "2024-01-02", realized := 40, unrealized := -5, fees := 3 }]

/-- C6: the three totals are the sums of the corresponding fields over the
full daily set, netPnl is totalRealized + totalUnrealized - totalFees, and on
the scenario with totals 100, -20, 5 the net PnL is 75. -/
theorem totals_and_netPnl (daily : List DailyPnl) (trades : List Trade) :
    (computeAggregates daily trades).totalRealized =
      (daily.map (fun d => d.realized)).sum ∧
    (computeAggregates daily trades).totalUnrealized =
      (daily.map (fun d => d.unrealized)).sum ∧
    (computeAggregates daily trades).totalFees =
      (daily.map (fun d => d.fees)).sum ∧
    (computeAggregates daily trades).netPnl =
      (computeAggregates daily trades).totalRealized
        + (computeAggregates daily trades).totalUnrealized
        - (computeAggregates daily trades).totalFees ∧
    (computeAggregates exNetDaily []).totalRealized = 100 ∧
    (computeAggregates exNetDaily []).totalUnrealized = -20 ∧
    (computeAggregates exNetDaily []).totalFees = 5 ∧
    (computeAggregates exNetDaily []).netPnl = 75 := by
  refine ⟨?_, ?_, ?_, rfl, ?_, ?_, ?_, ?_⟩
  · simp [computeAggregates, foldl_add_map_sum]
  · simp [computeAggregates, foldl_add_map_sum]
  · simp [computeAggregates, foldl_add_map_sum]
  · norm_num [computeAggregates, exNetDaily]
  · norm_num [computeAggregates, exNetDaily]
  · norm_num [computeAggregates, exNetDaily]
  · norm_num [computeAggregates, exNetDaily]

/-- Folding plain addition over a list of rationals sums the list. -/
theorem foldl_add_eq_sum (l : List ℚ) (init : ℚ) :
    l.foldl (fun a b => a + b) init = init + l.sum := by
  induction l generalizing init with
  | nil => simp
  | cons x xs ih =>
    simp only [List.foldl_cons, List.sum_cons, ih]
    ring

/-- The code's mean (fold divided by `max N 1`) equals the spec-form mean
(sum divided by N); for an empty list both sides are 0 because rational
division by zero is 0. -/
theorem mean_fold_eq (daily : List DailyPnl) :
    (daily.map (fun d => d.realized + d.unrealized - d.fees)).foldl
        (fun a b => a + b) 0
      / ((max (daily.map
          (fun d => d.realized + d.unrealized - d.fees)).length 1 : ℕ) : ℚ)
    = specMean daily := by
  cases daily with
  | nil => simp [specMean, sumDeltas]
  | cons d rest =>
    have hmax : max ((d :: rest).length) 1 = (d :: rest).length :=
      Nat.max_eq_left (Nat.le_add_left 1 rest.length)
    rw [foldl_add_eq_sum]
    simp only [List.length_map, hmax, specMean, sumDeltas, dailyDelta, zero_add]
    rfl

/-- The code's variance radicand (fold of squared deviations divided by
`max N 1`) equals the spec-form population variance. -/
theorem var_fold_eq (daily : List DailyPnl) :
    (daily.map (fun d => d.realized + d.unrealized - d.fees)).foldl
        (fun s r => s + (r - specMean daily) ^ 2) 0
      / ((max (daily.map
          (fun d => d.realized + d.unrealized - d.fees)).length 1 : ℕ) : ℚ)
    = specVariance daily := by
  cases daily with
  | nil => simp [specVariance]
  | cons d rest =>
    have hmax : max ((d :: rest).length) 1 = (d :: rest).length :=
      Nat.max_eq_left (Nat.le_add_left 1 rest.length)
    rw [foldl_add_map_sum]
    simp only [List.length_map, hmax, specVariance, dailyDelta, zero_add]
    rfl

/-- The sharpe field computed by the code equals the spec-form expression:
spec mean over (spec population sd, with 0 replaced by 1), annualized by
the square root of 365. -/
theorem agg_sharpe_eq (daily : List DailyPnl) (trades : List Trade) :
    (computeAggregates daily trades).sharpe =
      ((specMean daily : ℝ) / (if specSd daily = 0 then 1 else specSd daily))
        * Real.sqrt 365 := by
  simp only [computeAggregates]
  rw [mean_fold_eq]
  rw [var_fold_eq]
  rfl

/-- Four constant-return days (realized 1, no unrealized, no fees), the
spec's Sharpe scenario. -/
def exConstDaily : List DailyPnl :=
  [{ date := "2024-01-01", realized := 1, unrealized := 0, fees := 0 },
   { date := "2024-01-02", realized := 1, unrealized := 0, fees := 0 },
   { date := "2024-01-03", realized := 1, unrealized := 0, fees := 0 },
   { date := "2024-01-04", realized := 1, unrealized := 0, fees := 0 }]

/-- C2: for a non-empty daily list, sharpe is mean over population standard
deviation (sum of squared deviations over N, with sd 0 replaced by 1) of the
per-day net returns of the full daily set, times the square root of 365; on
four constant unit returns the result is exactly the square root of 365. -/
theorem sharpe_annualized_spec (daily : List DailyPnl) (trades : List Trade)
    (h : daily ≠ []) :
    (computeAggregates daily trades).sharpe =
      ((specMean daily : ℝ) / (if specSd daily = 0 then 1 else specSd daily))
        * Real.sqrt 365 ∧
    (computeAggregates exConstDaily []).sharpe = Real.sqrt 365 := by
  refine ⟨agg_sharpe_eq daily trades, ?_⟩
  have h1 : specMean exConstDaily = 1 := by
    norm_num [specMean, sumDeltas, dailyDelta, exConstDaily]
  have h2 : specVariance exConstDaily = 0 := by
    norm_num [specVariance, specMean, sumDeltas, dailyDelta, exConstDaily]
  have h3 : specSd exConstDaily = 0 := by
    rw [specSd, h2]
    simp
  rw [agg_sharpe_eq, h1, h3]
  norm_num

/-- Witness for C2 at the constant-returns scenario: the input is non-empty
and the sharpe field is the square root of 365. -/
theorem sharpe_annualized_spec_witness :
    exConstDaily ≠ [] ∧
    (computeAggregates exConstDaily []).sharpe = Real.sqrt 365 :=
  ⟨by simp [exConstDaily],
   (sharpe_annualized_spec exConstDaily [] (by simp [exConstDaily])).2⟩

/-- Two all-zero daily records: zero variance, zero mean. -/
def exZeroDaily : List DailyPnl :=
  [{ date := "2024-01-01", realized := 0, unrealized := 0, fees := 0 },
   { date := "2024-01-02", realized := 0, unrealized := 0, fees := 0 }]

/-- C7: on empty inputs winRate, tradesCount and netPnl are all 0; when the
per-day net returns have zero variance the zero standard deviation is
substituted by 1, so sharpe equals mean times the square root of 365, which
is 0 when the mean is 0. -/
theorem aggregates_edge_cases (daily : List DailyPnl) (trades : List Trade)
    (h : specVariance daily = 0) :
    (computeAggregates [] []).winRate = 0 ∧
    (computeAggregates [] []).tradesCount = 0 ∧
    (computeAggregates [] []).netPnl = 0 ∧
    (computeAggregates daily trades).sharpe =
      (specMean daily : ℝ) * Real.sqrt 365 ∧
    (specMean daily = 0 → (computeAggregates daily trades).sharpe = 0) := by
  have hsd : specSd daily = 0 := by
    rw [specSd, h]
    simp
  have hs : (computeAggregates daily trades).sharpe =
      (specMean daily : ℝ) * Real.sqrt 365 := by
    rw [agg_sharpe_eq, hsd]
    norm_num
  refine ⟨?_, rfl, ?_, hs, ?_⟩
  · norm_num [computeAggregates]
  · norm_num [computeAggregates]
  · intro hm
    rw [hs, hm]
    norm_num

/-- Witness for C7 at two all-zero daily records: the variance hypothesis
holds there, and the resulting sharpe is 0, not an error value. -/
theorem aggregates_edge_cases_witness :
    (computeAggregates exZeroDaily []).sharpe = 0 :=
  (aggregates_edge_cases exZeroDaily [] (by
    norm_num [specVariance, specMean, sumDeltas, dailyDelta,
      exZeroDaily])).2.2.2.2 (by
    norm_num [specMean, sumDeltas, dailyDelta, exZeroDaily])

/-- C8: both entry points are deterministic pure functions: identical input
collections give identical outputs in every field. -/
theorem aggregator_deterministic (d1 d2 : List DailyPnl)
    (t1 t2 : List Trade) (hd : d1 = d2) (ht : t1 = t2) :
    computeAggregates d1 t1 = computeAggregates d2 t2 ∧
    buildSeries d1 = buildSeries d2 := by
  subst hd
  subst ht
  exact ⟨rfl, rfl⟩

/-- Witness for C8 at concrete inputs. -/
theorem aggregator_deterministic_witness :
    computeAggregates exCumDaily exWinTrades
      = computeAggregates exCumDaily exWinTrades ∧
    buildSeries exCumDaily = buildSeries exCumDaily :=
  aggregator_deterministic exCumDaily exCumDaily exWinTrades exWinTrades
    rfl rfl

/-- C9: on an empty daily list the `max(N, 1)` denominators make the mean 0
and the substituted standard deviation 1, so sharpe is 0 (a well-defined
number) for every trade list; no caller-side guard is needed. -/
theorem sharpe_zero_on_empty_daily (trades : List Trade) :
    (computeAggregates [] trades).sharpe = 0 := by
  rw [agg_sharpe_eq]
  norm_num [specMean, sumDeltas]

/-- Sum of the three per-field totals (fees subtracted) equals the sum of
per-day net deltas. -/
theorem sum_fields_decomp (l : List DailyPnl) :
    (l.map (fun d => d.realized)).sum + (l.map (fun d => d.unrealized)).sum
      - (l.map (fun d => d.fees)).sum = sumDeltas l := by
  induction l with
  | nil => simp [sumDeltas]
  | cons d rest ih =>
    simp only [List.map_cons, List.sum_cons, sumDeltas, dailyDelta] at ih ⊢
    rw [← ih]
    ring

/-- The netPnl field equals the sum of per-day net deltas over the daily
list. -/
theorem netPnl_eq_sumDeltas (daily : List DailyPnl) (trades : List Trade) :
    (computeAggregates daily trades).netPnl = sumDeltas daily := by
  simp only [computeAggregates]
  rw [foldl_add_map_sum, foldl_add_map_sum, foldl_add_map_sum]
  simpa using sum_fields_decomp daily

/-- The last point emitted by the accumulator loop on a non-empty list
carries cumulative equal to the starting accumulator plus the sum of all
deltas. -/
theorem buildSeriesAux_getLast? (l : List DailyPnl) (cum : ℚ) (h : l ≠ []) :
    ∃ p : SeriesPoint, (buildSeriesAux cum l).getLast? = some p ∧
      p.cumulative = cum + sumDeltas l := by
  induction l generalizing cum with
  | nil => exact absurd rfl h
  | cons d rest ih =>
    cases rest with
    | nil =>
      exact ⟨⟨d.date, d.realized + d.unrealized - d.fees, d.realized,
        d.unrealized, -d.fees, cum + (d.realized + d.unrealized - d.fees)⟩,
        by simp [buildSeriesAux], by simp [sumDeltas, dailyDelta]⟩
    | cons r rs =>
      obtain ⟨p, hp, hc⟩ :=
        ih (cum + (d.realized + d.unrealized - d.fees)) (by simp)
      refine ⟨p, ?_, ?_⟩
      · simp only [buildSeriesAux] at hp ⊢
        rw [List.getLast?_cons_cons]
        exact hp
      · rw [hc]
        simp only [sumDeltas, dailyDelta, List.map_cons, List.sum_cons]
        ring

/-- C10: netPnl agrees with the cumulative value of the last point of the
series built over the full daily list, and is 0 when the daily list is
empty. -/
theorem netPnl_matches_last_cumulative (daily : List DailyPnl)
    (trades : List Trade) :
    (computeAggregates daily trades).netPnl =
      (match (buildSeries daily).getLast? with
        | some p => p.cumulative
        | none => 0) := by
  by_cases hd : daily = []
  · subst hd
    norm_num [computeAggregates, buildSeries, buildSeriesAux]
  · obtain ⟨p, hp, hc⟩ := buildSeriesAux_getLast? daily 0 hd
    rw [netPnl_eq_sumDeltas]
    simp only [buildSeries]
    rw [hp]
    simp [hc]

end PolyStats
